import Mathlib

/-!
Verification of the fimbl tracking store (src/database.rs, src/report.rs,
src/fingerprint.rs).

The store is modelled as an association list from UTF-8 path keys to the
current `FingerprintRecord` of the path, mirroring the single sled tree
named "fingerprints".  `SystemTime.now()` is impure in the source, so each
writing operation takes the current timestamp as an explicit `now`
argument.  Serialization via rmp_serde is inverse on records written by
these operations, so the tree holds records directly.
-/

namespace Fimbl

/-- A filesystem path as seen by the operations: either representable as a
UTF-8 string (in which case `to_str` succeeds) or not. -/
inductive OsPath where
  | utf8 (s : String)
  | nonUtf8 (bytes : List Nat)
deriving DecidableEq, Repr

/-- `path_as_key` from database.rs: `path.to_str().map(|s| IVec::from(s.as_bytes()))`.
Succeeds exactly when the path is valid UTF-8. -/
def path_as_key : OsPath → Option String
  | OsPath.utf8 s => some s
  | OsPath.nonUtf8 _ => none

/-- `Fingerprint` from fingerprint.rs: content hash plus selected metadata.
Timestamps are modelled as naturals.  Structural equality over all fields
(the derived `PartialEq`). -/
structure Fingerprint where
  content_hash : List Nat
  symlink : Bool
  created : Option Nat
  modified : Option Nat
  unix_mode : Option Nat
  read_only : Bool
deriving DecidableEq, Repr

/-- `FingerprintRecord` from database.rs: either the fingerprint was valid
from a given time, or no fingerprint is tracked from a given time. -/
inductive FingerprintRecord where
  | Assert (t : Nat) (fp : Fingerprint)
  | Retract (t : Nat)
deriving DecidableEq, Repr

/-- `FingerprintRecord::fingerprint`: the fingerprint of an Assert, none
for a Retract. -/
def FingerprintRecord.fingerprint : FingerprintRecord → Option Fingerprint
  | FingerprintRecord.Assert _ fp => some fp
  | FingerprintRecord.Retract _ => none

/-- `ReportItem` from report.rs. -/
inductive ReportItem where
  | FileAlreadyTracked (path : OsPath)
  | FileNotTracked (path : OsPath)
  | FileContentChanged (path : OsPath)
  | FileNameNotSupported (path : OsPath)
  | FileIsDirectory (path : OsPath)
deriving DecidableEq, Repr

/-- The "fingerprints" sled tree: key-to-current-record mapping, modelled
as an association list. -/
abbrev Tree := List (String × FingerprintRecord)

/-- `tree.get(key)`: the record currently stored under a key. -/
def Tree.get : Tree → String → Option FingerprintRecord
  | [], _ => none
  | (k, r) :: rest, key => if k = key then some r else Tree.get rest key

/-- `tree.contains_key(key)`. -/
def Tree.contains_key (t : Tree) (key : String) : Bool :=
  (Tree.get t key).isSome

/-- `tree.insert(key, value)`: overwrite the value under an existing key,
or add a binding for a new key. -/
def Tree.insertRec : Tree → String → FingerprintRecord → Tree
  | [], key, r => [(key, r)]
  | (k, r0) :: rest, key, r =>
      if k = key then (key, r) :: rest else (k, r0) :: Tree.insertRec rest key r

/-- `SystemDatabase::store_new_file` (add_new): returns the reports and the
tree after the operation.  `now` stands for `SystemTime::now()`. -/
def store_new_file (t : Tree) (path : OsPath) (fingerprint : Fingerprint)
    (tolerate_existing : Bool) (now : Nat) : List ReportItem × Tree :=
  match path_as_key path with
  | some path_key =>
      match Tree.get t path_key with
      | some record =>
          match record.fingerprint with
          | some stored_fingerprint =>
              if tolerate_existing then
                if stored_fingerprint ≠ fingerprint then
                  ([ReportItem.FileContentChanged path], t)
                else ([], t)
              else ([ReportItem.FileAlreadyTracked path], t)
          | none =>
              ([], Tree.insertRec t path_key (FingerprintRecord.Assert now fingerprint))
      | none =>
          ([], Tree.insertRec t path_key (FingerprintRecord.Assert now fingerprint))
  | none => ([ReportItem.FileNameNotSupported path], t)

/-- `SystemDatabase::update_existing_file`: write a fresh Assert when the
path is tracked or untracked paths are tolerated. -/
def update_existing_file (t : Tree) (path : OsPath) (fingerprint : Fingerprint)
    (tolerate_untracked : Bool) (now : Nat) : List ReportItem × Tree :=
  match path_as_key path with
  | some path_key =>
      if Tree.contains_key t path_key || tolerate_untracked then
        ([], Tree.insertRec t path_key (FingerprintRecord.Assert now fingerprint))
      else ([ReportItem.FileNotTracked path], t)
  | none => ([ReportItem.FileNameNotSupported path], t)

/-- `SystemDatabase::remove_existing_file`: write a Retract when the path
is tracked or untracked paths are tolerated. -/
def remove_existing_file (t : Tree) (path : OsPath)
    (tolerate_untracked : Bool) (now : Nat) : List ReportItem × Tree :=
  match path_as_key path with
  | some path_key =>
      if Tree.contains_key t path_key || tolerate_untracked then
        ([], Tree.insertRec t path_key (FingerprintRecord.Retract now))
      else ([ReportItem.FileNotTracked path], t)
  | none => ([ReportItem.FileNameNotSupported path], t)

/-- `SystemDatabase::list_fingerprint_assertions`: the (path, fingerprint)
pairs of entries whose current record is an Assert. -/
def list_fingerprint_assertions (t : Tree) : List (String × Fingerprint) :=
  t.filterMap fun kr =>
    match kr with
    | (k, FingerprintRecord.Assert _ fp) => some (k, fp)
    | (_, FingerprintRecord.Retract _) => none

/-- `SystemDatabase::verify`: compare the supplied fingerprint with the
recorded one; never writes, so the tree is returned unchanged. -/
def verify (t : Tree) (path : OsPath) (fingerprint : Fingerprint) :
    List ReportItem × Tree :=
  match path_as_key path with
  | some path_key =>
      match Tree.get t path_key with
      | some record =>
          match record.fingerprint with
          | some stored_fingerprint =>
              if stored_fingerprint ≠ fingerprint then
                ([ReportItem.FileContentChanged path], t)
              else ([], t)
          | none => ([ReportItem.FileNotTracked path], t)
      | none => ([ReportItem.FileNotTracked path], t)
  | none => ([ReportItem.FileNameNotSupported path], t)

/-! Sample values for witnesses. -/

/-- A sample fingerprint. -/
def fpA : Fingerprint :=
  { content_hash := [1], symlink := false, created := none, modified := none,
    unix_mode := none, read_only := false }

/-- A second sample fingerprint, differing from `fpA` in several fields. -/
def fpB : Fingerprint :=
  { content_hash := [2], symlink := true, created := some 7, modified := none,
    unix_mode := some 420, read_only := true }

/-! Helper lemmas about the tree. -/

/-- Inserting preserves membership of every key already present. -/
theorem Tree.contains_key_insertRec_of (t : Tree) (k key : String)
    (r : FingerprintRecord) (h : Tree.contains_key t key = true) :
    Tree.contains_key (Tree.insertRec t k r) key = true := by
  induction t with
  | nil => simp [Tree.contains_key, Tree.get] at h
  | cons hd tl ih =>
      obtain ⟨k0, r0⟩ := hd
      by_cases hk : k0 = k
      · subst hk
        simp only [Tree.insertRec, if_pos rfl]
        by_cases hkey : k0 = key
        · simp [Tree.contains_key, Tree.get, hkey]
        · simp only [Tree.contains_key, Tree.get, if_neg hkey] at h ⊢
          exact h
      · simp only [Tree.insertRec, if_neg hk]
        by_cases hkey : k0 = key
        · simp [Tree.contains_key, Tree.get, hkey]
        · simp only [Tree.contains_key, Tree.get, if_neg hkey] at h ⊢
          exact ih h

/-- The keys after an insert: unchanged when the key was present, the old
keys followed by the new key otherwise. -/
theorem Tree.keys_insertRec (t : Tree) (k : String) (r : FingerprintRecord) :
    (Tree.insertRec t k r).map Prod.fst =
      if Tree.contains_key t k then t.map Prod.fst else t.map Prod.fst ++ [k] := by
  induction t with
  | nil => simp [Tree.insertRec, Tree.contains_key, Tree.get]
  | cons hd tl ih =>
      obtain ⟨k0, r0⟩ := hd
      by_cases hk : k0 = k
      · subst hk
        simp [Tree.insertRec, Tree.contains_key, Tree.get]
      · simp only [Tree.insertRec, if_neg hk, Tree.contains_key, Tree.get,
          List.map_cons, ih]
        by_cases hc : Tree.contains_key tl k
        · simp [Tree.contains_key] at hc
          simp [hk, hc]
        · simp [Tree.contains_key] at hc
          simp [hk, hc]

/-- A key occurring in the key list is contained in the tree. -/
theorem Tree.contains_key_of_mem_keys (t : Tree) (k : String)
    (hmem : k ∈ t.map Prod.fst) : Tree.contains_key t k = true := by
  induction t with
  | nil => simp at hmem
  | cons hd tl ih =>
      obtain ⟨k0, r0⟩ := hd
      simp only [List.map_cons, List.mem_cons] at hmem
      rcases hmem with h1 | h2
      · simp [Tree.contains_key, Tree.get, h1.symm]
      · by_cases hk0 : k0 = k
        · simp [Tree.contains_key, Tree.get, hk0]
        · simp only [Tree.contains_key, Tree.get, if_neg hk0]
          exact ih h2

/-- Inserting preserves distinctness of the keys. -/
theorem Tree.nodup_keys_insertRec (t : Tree) (k : String) (r : FingerprintRecord)
    (h : (t.map Prod.fst).Nodup) :
    ((Tree.insertRec t k r).map Prod.fst).Nodup := by
  rw [Tree.keys_insertRec]
  by_cases hc : Tree.contains_key t k
  · simpa [hc] using h
  · have hnk : k ∉ t.map Prod.fst := fun hmem =>
      hc (Tree.contains_key_of_mem_keys t k hmem)
    simp [hc, List.nodup_append, h, hnk]

/-! Claim theorems. -/

/-- C1: for every path key and candidate fingerprint, verify reports
"not tracked" when no record or a Retract is stored, "content changed"
when the stored Assert fingerprint differs from the candidate in any
field, and nothing when they are equal field-for-field. -/
theorem verify_case_analysis (t : Tree) (p : OsPath) (k : String)
    (fp : Fingerprint) (hk : path_as_key p = some k) :
    (Tree.get t k = none →
      verify t p fp = ([ReportItem.FileNotTracked p], t)) ∧
    (∀ ts, Tree.get t k = some (FingerprintRecord.Retract ts) →
      verify t p fp = ([ReportItem.FileNotTracked p], t)) ∧
    (∀ ts sfp, Tree.get t k = some (FingerprintRecord.Assert ts sfp) →
      sfp ≠ fp → verify t p fp = ([ReportItem.FileContentChanged p], t)) ∧
    (∀ ts sfp, Tree.get t k = some (FingerprintRecord.Assert ts sfp) →
      sfp = fp → verify t p fp = ([], t)) := by
  refine ⟨fun h => ?_, fun ts h => ?_, fun ts sfp h hne => ?_,
    fun ts sfp h heq => ?_⟩
  · simp [verify, hk, h]
  · simp [verify, hk, h, FingerprintRecord.fingerprint]
  · simp [verify, hk, h, FingerprintRecord.fingerprint, hne]
  · simp [verify, hk, h, FingerprintRecord.fingerprint, heq]

/-- C1 witness: verifying a path absent from the empty store reports it
as not tracked. -/
theorem verify_case_analysis_witness :
    verify [] (OsPath.utf8 "a") fpA =
      ([ReportItem.FileNotTracked (OsPath.utf8 "a")], []) :=
  (verify_case_analysis [] (OsPath.utf8 "a") "a" fpA rfl).1 rfl

/-- C2: when the current record is an Assert, add_new in tolerant mode
reports "content changed" on a fingerprint mismatch and nothing on a
match, and in strict mode reports "already tracked" regardless; the store
is unchanged in all three cases. -/
theorem store_new_file_existing_assert (t : Tree) (p : OsPath) (k : String)
    (fp sfp : Fingerprint) (ts : Nat)
    (hk : path_as_key p = some k)
    (hg : Tree.get t k = some (FingerprintRecord.Assert ts sfp)) :
    (∀ now, sfp ≠ fp →
      store_new_file t p fp true now = ([ReportItem.FileContentChanged p], t)) ∧
    (∀ now, sfp = fp → store_new_file t p fp true now = ([], t)) ∧
    (∀ now,
      store_new_file t p fp false now = ([ReportItem.FileAlreadyTracked p], t)) := by
  refine ⟨fun now hne => ?_, fun now heq => ?_, fun now => ?_⟩
  · simp [store_new_file, hk, hg, FingerprintRecord.fingerprint, hne]
  · simp [store_new_file, hk, hg, FingerprintRecord.fingerprint, heq]
  · simp [store_new_file, hk, hg, FingerprintRecord.fingerprint]

/-- C2 witness: adding over an existing Assert with a different
fingerprint, in tolerant mode, reports a content change and writes
nothing. -/
theorem store_new_file_existing_assert_witness :
    store_new_file [("a", FingerprintRecord.Assert 0 fpB)] (OsPath.utf8 "a")
        fpA true 5 =
      ([ReportItem.FileContentChanged (OsPath.utf8 "a")],
        [("a", FingerprintRecord.Assert 0 fpB)]) :=
  (store_new_file_existing_assert [("a", FingerprintRecord.Assert 0 fpB)]
    (OsPath.utf8 "a") "a" fpA fpB 0 rfl rfl).1 5 (by decide)

/-- C3: when the current record is a Retract, add_new inserts a fresh
Assert(now, fingerprint) and reports nothing, for either value of the
tolerance flag — exactly what it does for a never-seen path. -/
theorem store_new_file_after_retract (t : Tree) (p : OsPath) (k : String)
    (fp : Fingerprint) (ts now : Nat) (tolerate_existing : Bool)
    (hk : path_as_key p = some k)
    (hg : Tree.get t k = some (FingerprintRecord.Retract ts)) :
    store_new_file t p fp tolerate_existing now =
      ([], Tree.insertRec t k (FingerprintRecord.Assert now fp)) ∧
    (∀ t2 : Tree, Tree.get t2 k = none →
      store_new_file t2 p fp tolerate_existing now =
        ([], Tree.insertRec t2 k (FingerprintRecord.Assert now fp))) := by
  constructor
  · simp [store_new_file, hk, hg, FingerprintRecord.fingerprint]
  · intro t2 h2
    simp [store_new_file, hk, h2]

/-- C3 witness: re-adding a retracted path in strict mode silently inserts
a fresh Assert, just as adding it to an empty store would. -/
theorem store_new_file_after_retract_witness :
    store_new_file [("a", FingerprintRecord.Retract 3)] (OsPath.utf8 "a")
        fpA false 9 =
      ([], [("a", FingerprintRecord.Assert 9 fpA)]) ∧
    store_new_file [] (OsPath.utf8 "a") fpA false 9 =
      ([], [("a", FingerprintRecord.Assert 9 fpA)]) := by
  have h := store_new_file_after_retract
    [("a", FingerprintRecord.Retract 3)] (OsPath.utf8 "a") "a" fpA 3 9 false
    rfl rfl
  exact ⟨h.1, h.2 [] rfl⟩

/-- C4: update_existing writes a fresh Assert without comparing
fingerprints whenever any record exists or untracked paths are tolerated,
and otherwise reports "not tracked" and writes nothing. -/
theorem update_existing_file_cases (t : Tree) (p : OsPath) (k : String)
    (fp : Fingerprint) (tolerate_untracked : Bool) (now : Nat)
    (hk : path_as_key p = some k) :
    (Tree.contains_key t k = true ∨ tolerate_untracked = true →
      update_existing_file t p fp tolerate_untracked now =
        ([], Tree.insertRec t k (FingerprintRecord.Assert now fp))) ∧
    (Tree.contains_key t k = false → tolerate_untracked = false →
      update_existing_file t p fp tolerate_untracked now =
        ([ReportItem.FileNotTracked p], t)) := by
  constructor
  · intro h
    rcases h with h | h <;> simp [update_existing_file, hk, h]
  · intro h1 h2
    simp [update_existing_file, hk, h1, h2]

/-- C4 witness: updating a path tracked with one fingerprint overwrites it
with a fresh Assert carrying the new fingerprint, with no comparison and
no report. -/
theorem update_existing_file_cases_witness :
    update_existing_file [("a", FingerprintRecord.Assert 0 fpB)]
        (OsPath.utf8 "a") fpA false 4 =
      ([], [("a", FingerprintRecord.Assert 4 fpA)]) :=
  (update_existing_file_cases [("a", FingerprintRecord.Assert 0 fpB)]
    (OsPath.utf8 "a") "a" fpA false 4 rfl).1 (Or.inl rfl)

/-- C5: remove writes a Retract(now) whenever any record exists or
untracked paths are tolerated, and otherwise reports "not tracked" and
writes nothing. -/
theorem remove_existing_file_cases (t : Tree) (p : OsPath) (k : String)
    (tolerate_untracked : Bool) (now : Nat)
    (hk : path_as_key p = some k) :
    (Tree.contains_key t k = true ∨ tolerate_untracked = true →
      remove_existing_file t p tolerate_untracked now =
        ([], Tree.insertRec t k (FingerprintRecord.Retract now))) ∧
    (Tree.contains_key t k = false → tolerate_untracked = false →
      remove_existing_file t p tolerate_untracked now =
        ([ReportItem.FileNotTracked p], t)) := by
  constructor
  · intro h
    rcases h with h | h <;> simp [remove_existing_file, hk, h]
  · intro h1 h2
    simp [remove_existing_file, hk, h1, h2]

/-- C5 witness: removing a tracked path overwrites its record with a
Retract and reports nothing. -/
theorem remove_existing_file_cases_witness :
    remove_existing_file [("a", FingerprintRecord.Assert 0 fpA)]
        (OsPath.utf8 "a") false 6 =
      ([], [("a", FingerprintRecord.Retract 6)]) :=
  (remove_existing_file_cases [("a", FingerprintRecord.Assert 0 fpA)]
    (OsPath.utf8 "a") "a" false 6 rfl).1 (Or.inl rfl)

/-- C6: every operation preserves the one-current-record-per-key invariant
(distinct keys) and never deletes a key: every key present before an
operation is present after it; verify leaves the store unchanged. -/
theorem store_operations_invariant (t : Tree) (p : OsPath) (fp : Fingerprint)
    (b : Bool) (now : Nat) (key : String)
    (hnd : (t.map Prod.fst).Nodup) (hc : Tree.contains_key t key = true) :
    ((((store_new_file t p fp b now).2).map Prod.fst).Nodup ∧
      Tree.contains_key (store_new_file t p fp b now).2 key = true) ∧
    ((((update_existing_file t p fp b now).2).map Prod.fst).Nodup ∧
      Tree.contains_key (update_existing_file t p fp b now).2 key = true) ∧
    ((((remove_existing_file t p b now).2).map Prod.fst).Nodup ∧
      Tree.contains_key (remove_existing_file t p b now).2 key = true) ∧
    (verify t p fp).2 = t := by
  have hins : ∀ (k : String) (r : FingerprintRecord),
      ((Tree.insertRec t k r).map Prod.fst).Nodup ∧
        Tree.contains_key (Tree.insertRec t k r) key = true :=
    fun k r => ⟨Tree.nodup_keys_insertRec t k r hnd,
      Tree.contains_key_insertRec_of t k key r hc⟩
  refine ⟨?_, ?_, ?_, ?_⟩
  · cases hpk : path_as_key p with
    | none => simpa [store_new_file, hpk] using ⟨hnd, hc⟩
    | some k =>
        cases hg : Tree.get t k with
        | none => simpa [store_new_file, hpk, hg] using hins k _
        | some record =>
            cases record with
            | Assert ts sfp =>
                by_cases hb : b = true
                · by_cases hfp : sfp = fp <;>
                    simpa [store_new_file, hpk, hg,
                      FingerprintRecord.fingerprint, hb, hfp] using ⟨hnd, hc⟩
                · simpa [store_new_file, hpk, hg,
                    FingerprintRecord.fingerprint, hb] using ⟨hnd, hc⟩
            | Retract ts =>
                simpa [store_new_file, hpk, hg,
                  FingerprintRecord.fingerprint] using hins k _
  · cases hpk : path_as_key p with
    | none => simpa [update_existing_file, hpk] using ⟨hnd, hc⟩
    | some k =>
        by_cases hcb : (Tree.contains_key t k || b) = true
        · simpa [update_existing_file, hpk, hcb] using hins k _
        · simp only [Bool.or_eq_true, not_or] at hcb
          simpa [update_existing_file, hpk, hcb.1, hcb.2] using ⟨hnd, hc⟩
  · cases hpk : path_as_key p with
    | none => simpa [remove_existing_file, hpk] using ⟨hnd, hc⟩
    | some k =>
        by_cases hcb : (Tree.contains_key t k || b) = true
        · simpa [remove_existing_file, hpk, hcb] using hins k _
        · simp only [Bool.or_eq_true, not_or] at hcb
          simpa [remove_existing_file, hpk, hcb.1, hcb.2] using ⟨hnd, hc⟩
  · cases hpk : path_as_key p with
    | none => simp [verify, hpk]
    | some k =>
        cases hg : Tree.get t k with
        | none => simp [verify, hpk, hg]
        | some record =>
            cases hf : record.fingerprint with
            | none => simp [verify, hpk, hg, hf]
            | some sfp =>
                by_cases hfp : sfp = fp <;> simp [verify, hpk, hg, hf, hfp]

/-- C6 witness: the four operations applied to a one-entry store keep its
keys distinct, keep the existing key present, and verify leaves the store
unchanged. -/
theorem store_operations_invariant_witness :
    ((((store_new_file [("a", FingerprintRecord.Assert 0 fpA)]
        (OsPath.utf8 "a") fpB true 1).2).map Prod.fst).Nodup ∧
      Tree.contains_key (store_new_file [("a", FingerprintRecord.Assert 0 fpA)]
        (OsPath.utf8 "a") fpB true 1).2 "a" = true) ∧
    ((((update_existing_file [("a", FingerprintRecord.Assert 0 fpA)]
        (OsPath.utf8 "a") fpB true 1).2).map Prod.fst).Nodup ∧
      Tree.contains_key (update_existing_file
        [("a", FingerprintRecord.Assert 0 fpA)]
        (OsPath.utf8 "a") fpB true 1).2 "a" = true) ∧
    ((((remove_existing_file [("a", FingerprintRecord.Assert 0 fpA)]
        (OsPath.utf8 "a") true 1).2).map Prod.fst).Nodup ∧
      Tree.contains_key (remove_existing_file
        [("a", FingerprintRecord.Assert 0 fpA)]
        (OsPath.utf8 "a") true 1).2 "a" = true) ∧
    (verify [("a", FingerprintRecord.Assert 0 fpA)] (OsPath.utf8 "a") fpB).2 =
      [("a", FingerprintRecord.Assert 0 fpA)] :=
  store_operations_invariant [("a", FingerprintRecord.Assert 0 fpA)]
    (OsPath.utf8 "a") fpB true 1 "a" (by simp) rfl

/-- C8: a path that cannot be encoded to the UTF-8 key format makes every
operation return a single "filename unsupported" report and leave the
store untouched. -/
theorem unsupported_name_no_mutation (t : Tree) (p : OsPath)
    (fp : Fingerprint) (b : Bool) (now : Nat)
    (hk : path_as_key p = none) :
    store_new_file t p fp b now = ([ReportItem.FileNameNotSupported p], t) ∧
    update_existing_file t p fp b now =
      ([ReportItem.FileNameNotSupported p], t) ∧
    remove_existing_file t p b now = ([ReportItem.FileNameNotSupported p], t) ∧
    verify t p fp = ([ReportItem.FileNameNotSupported p], t) := by
  refine ⟨?_, ?_, ?_, ?_⟩ <;>
    simp [store_new_file, update_existing_file, remove_existing_file, verify, hk]

/-- C8 witness: a non-UTF-8 path is reported as unsupported by add_new and
the store is unchanged. -/
theorem unsupported_name_no_mutation_witness :
    store_new_file [("a", FingerprintRecord.Assert 0 fpA)]
        (OsPath.nonUtf8 [255]) fpB false 2 =
      ([ReportItem.FileNameNotSupported (OsPath.nonUtf8 [255])],
        [("a", FingerprintRecord.Assert 0 fpA)]) :=
  (unsupported_name_no_mutation [("a", FingerprintRecord.Assert 0 fpA)]
    (OsPath.nonUtf8 [255]) fpB false 2 rfl).1

/-- C9: verify never modifies the store, and verifying a path stored with
a matching Assert twice in a row yields an empty report list both times. -/
theorem verify_no_mutation (t : Tree) (p : OsPath) (fp : Fingerprint) :
    (verify t p fp).2 = t ∧
    (∀ k ts, path_as_key p = some k →
      Tree.get t k = some (FingerprintRecord.Assert ts fp) →
      verify t p fp = ([], t) ∧ verify (verify t p fp).2 p fp = ([], t)) := by
  have hsnap : (verify t p fp).2 = t := by
    cases hpk : path_as_key p with
    | none => simp [verify, hpk]
    | some k =>
        cases hg : Tree.get t k with
        | none => simp [verify, hpk, hg]
        | some record =>
            cases hf : record.fingerprint with
            | none => simp [verify, hpk, hg, hf]
            | some sfp =>
                by_cases hfp : sfp = fp <;> simp [verify, hpk, hg, hf, hfp]
  refine ⟨hsnap, fun k ts hk hg => ?_⟩
  have h1 : verify t p fp = ([], t) := by
    simp [verify, hk, hg, FingerprintRecord.fingerprint]
  exact ⟨h1, by rw [hsnap, h1]⟩

/-- C9 witness: verifying a matching fingerprint twice in a row produces
no reports either time and leaves the store unchanged. -/
theorem verify_no_mutation_witness :
    verify [("a", FingerprintRecord.Assert 0 fpA)] (OsPath.utf8 "a") fpA =
        ([], [("a", FingerprintRecord.Assert 0 fpA)]) ∧
      verify (verify [("a", FingerprintRecord.Assert 0 fpA)]
          (OsPath.utf8 "a") fpA).2 (OsPath.utf8 "a") fpA =
        ([], [("a", FingerprintRecord.Assert 0 fpA)]) :=
  (verify_no_mutation [("a", FingerprintRecord.Assert 0 fpA)]
    (OsPath.utf8 "a") fpA).2 "a" 0 rfl rfl

/-- With distinct keys, membership of a binding coincides with lookup. -/
theorem Tree.mem_iff_get (t : Tree) (k : String) (r : FingerprintRecord)
    (hnd : (t.map Prod.fst).Nodup) :
    (k, r) ∈ t ↔ Tree.get t k = some r := by
  induction t with
  | nil => simp [Tree.get]
  | cons hd tl ih =>
      obtain ⟨k0, r0⟩ := hd
      simp only [List.map_cons, List.nodup_cons] at hnd
      by_cases hk : k0 = k
      · subst hk
        have hget : Tree.get ((k0, r0) :: tl) k0 = some r0 := by
          simp [Tree.get]
        rw [hget]
        simp only [List.mem_cons, Option.some.injEq, Prod.mk.injEq, true_and]
        constructor
        · rintro (h | h)
          · exact h.symm
          · exact absurd (List.mem_map_of_mem Prod.fst h) hnd.1
        · intro h
          exact Or.inl h.symm
      · have hget : Tree.get ((k0, r0) :: tl) k = Tree.get tl k := by
          simp [Tree.get, hk]
        rw [hget, ← ih hnd.2]
        simp only [List.mem_cons, Prod.mk.injEq]
        constructor
        · rintro (⟨h1, h2⟩ | h)
          · exact absurd h1.symm hk
          · exact h
        · exact Or.inr

/-- C7: list_tracked returns exactly the pairs whose current record is an
Assert, never a retracted path; in the scenario add A, add B, remove A the
listing is exactly B. -/
theorem list_tracked_characterization (t : Tree) (k : String)
    (fp : Fingerprint) (hnd : (t.map Prod.fst).Nodup) :
    ((k, fp) ∈ list_fingerprint_assertions t ↔
      ∃ ts, Tree.get t k = some (FingerprintRecord.Assert ts fp)) ∧
    (∀ ts, Tree.get t k = some (FingerprintRecord.Retract ts) →
      ∀ fp2, (k, fp2) ∉ list_fingerprint_assertions t) ∧
    (∀ fpa fpb : Fingerprint, ∀ ba bb br : Bool, ∀ ta tb tr : Nat,
      list_fingerprint_assertions
        (remove_existing_file
          (store_new_file
            (store_new_file ([] : Tree) (OsPath.utf8 "a") fpa ba ta).2
            (OsPath.utf8 "b") fpb bb tb).2
          (OsPath.utf8 "a") br tr).2 = [("b", fpb)]) := by
  have hmem : ∀ fp2 : Fingerprint,
      (k, fp2) ∈ list_fingerprint_assertions t ↔
        ∃ ts, (k, FingerprintRecord.Assert ts fp2) ∈ t := by
    intro fp2
    unfold list_fingerprint_assertions
    rw [List.mem_filterMap]
    constructor
    · rintro ⟨⟨k1, r1⟩, hmem1, hf⟩
      cases r1 with
      | Assert ts fp1 =>
          simp only [Option.some.injEq, Prod.mk.injEq] at hf
          exact ⟨ts, hf.1 ▸ hf.2 ▸ hmem1⟩
      | Retract ts => simp at hf
    · rintro ⟨ts, hmem1⟩
      exact ⟨(k, FingerprintRecord.Assert ts fp2), hmem1, rfl⟩
  refine ⟨?_, ?_, ?_⟩
  · rw [hmem fp]
    exact exists_congr fun ts => Tree.mem_iff_get t k _ hnd
  · intro ts hret fp2 habs
    rw [hmem fp2] at habs
    obtain ⟨ts2, habs⟩ := habs
    rw [Tree.mem_iff_get t k _ hnd] at habs
    simp [hret] at habs
  · intro fpa fpb ba bb br ta tb tr
    simp [store_new_file, remove_existing_file, list_fingerprint_assertions,
      Tree.get, Tree.insertRec, Tree.contains_key, path_as_key]

/-- C7 witness: in a store tracking "a" with fingerprint fpA, the listing
contains the pair ("a", fpA). -/
theorem list_tracked_characterization_witness :
    ("a", fpA) ∈
      list_fingerprint_assertions [("a", FingerprintRecord.Assert 2 fpA)] :=
  (list_tracked_characterization [("a", FingerprintRecord.Assert 2 fpA)]
    "a" fpA (by simp)).1.mpr ⟨2, rfl⟩

/-! Timestamp erasure, for the timestamp-independence claim. -/

/-- A record with its timestamp erased: the variant plus, for an Assert,
the fingerprint. -/
inductive RecordShape where
  | AssertS (fp : Fingerprint)
  | RetractS
deriving DecidableEq, Repr

/-- Erase the timestamp of a record. -/
def FingerprintRecord.shape : FingerprintRecord → RecordShape
  | FingerprintRecord.Assert _ fp => RecordShape.AssertS fp
  | FingerprintRecord.Retract _ => RecordShape.RetractS

/-- Erase every timestamp of a tree: two trees with equal shapes differ
only in the timestamp components of their records. -/
def Tree.shapes (t : Tree) : List (String × RecordShape) :=
  t.map fun kr => (kr.1, kr.2.shape)

/-- Shape-equal trees look up to shape-equal records. -/
theorem Tree.get_shape_congr (t1 t2 : Tree)
    (h : Tree.shapes t1 = Tree.shapes t2) (k : String) :
    (Tree.get t1 k).map FingerprintRecord.shape =
      (Tree.get t2 k).map FingerprintRecord.shape := by
  induction t1 generalizing t2 with
  | nil =>
      cases t2 with
      | nil => rfl
      | cons hd tl => simp [Tree.shapes] at h
  | cons hd tl ih =>
      cases t2 with
      | nil => simp [Tree.shapes] at h
      | cons hd2 tl2 =>
          obtain ⟨k1, r1⟩ := hd
          obtain ⟨k2, r2⟩ := hd2
          simp only [Tree.shapes, List.map_cons, List.cons.injEq,
            Prod.mk.injEq] at h
          obtain ⟨⟨hk, hr⟩, htl⟩ := h
          subst hk
          by_cases hkk : k1 = k
          · simp [Tree.get, hkk, hr]
          · simp only [Tree.get, if_neg hkk]
            exact ih tl2 htl

/-- Shape-equal trees contain the same keys. -/
theorem Tree.contains_key_shape_congr (t1 t2 : Tree)
    (h : Tree.shapes t1 = Tree.shapes t2) (k : String) :
    Tree.contains_key t1 k = Tree.contains_key t2 k := by
  have hg := Tree.get_shape_congr t1 t2 h k
  unfold Tree.contains_key
  cases h1 : Tree.get t1 k <;> cases h2 : Tree.get t2 k <;> simp_all

/-- Inserting shape-equal records into shape-equal trees yields
shape-equal trees. -/
theorem Tree.shapes_insertRec_congr (t1 t2 : Tree)
    (h : Tree.shapes t1 = Tree.shapes t2) (k : String)
    (r1 r2 : FingerprintRecord) (hr : r1.shape = r2.shape) :
    Tree.shapes (Tree.insertRec t1 k r1) = Tree.shapes (Tree.insertRec t2 k r2) := by
  induction t1 generalizing t2 with
  | nil =>
      cases t2 with
      | nil => simp [Tree.insertRec, Tree.shapes, hr]
      | cons hd tl => simp [Tree.shapes] at h
  | cons hd tl ih =>
      cases t2 with
      | nil => simp [Tree.shapes] at h
      | cons hd2 tl2 =>
          obtain ⟨k1, r01⟩ := hd
          obtain ⟨k2, r02⟩ := hd2
          simp only [Tree.shapes, List.map_cons, List.cons.injEq,
            Prod.mk.injEq] at h
          obtain ⟨⟨hk, hr0⟩, htl⟩ := h
          subst hk
          by_cases hkk : k1 = k
          · simp [Tree.insertRec, hkk, Tree.shapes, hr, htl]
          · simp only [Tree.insertRec, if_neg hkk, Tree.shapes, List.map_cons]
            rw [show r01.shape = r02.shape from hr0]
            exact congrArg (List.cons (k1, r02.shape)) (ih tl2 htl)

/-- The listing depends only on the shapes of a tree. -/
theorem list_fingerprint_assertions_shape_congr (t1 t2 : Tree)
    (h : Tree.shapes t1 = Tree.shapes t2) :
    list_fingerprint_assertions t1 = list_fingerprint_assertions t2 := by
  induction t1 generalizing t2 with
  | nil =>
      cases t2 with
      | nil => rfl
      | cons hd tl => simp [Tree.shapes] at h
  | cons hd tl ih =>
      cases t2 with
      | nil => simp [Tree.shapes] at h
      | cons hd2 tl2 =>
          obtain ⟨k1, r1⟩ := hd
          obtain ⟨k2, r2⟩ := hd2
          simp only [Tree.shapes, List.map_cons, List.cons.injEq,
            Prod.mk.injEq] at h
          obtain ⟨⟨hk, hr⟩, htl⟩ := h
          subst hk
          cases r1 with
          | Assert ts1 fp1 =>
              cases r2 with
              | Assert ts2 fp2 =>
                  simp only [FingerprintRecord.shape,
                    RecordShape.AssertS.injEq] at hr
                  subst hr
                  simp only [list_fingerprint_assertions, List.filterMap_cons]
                  exact congrArg (List.cons (k1, fp1)) (ih tl2 htl)
              | Retract ts2 => simp [FingerprintRecord.shape] at hr
          | Retract ts1 =>
              cases r2 with
              | Assert ts2 fp2 => simp [FingerprintRecord.shape] at hr
              | Retract ts2 =>
                  simp only [list_fingerprint_assertions, List.filterMap_cons]
                  exact ih tl2 htl

/-- C10: reports are independent of stored timestamps: two stores whose
records differ only in timestamps produce the same reports, and result
stores again differing only in timestamps, for every operation; the
listing is identical. -/
theorem report_timestamp_independence (t1 t2 : Tree) (p : OsPath)
    (fp : Fingerprint) (b : Bool) (now : Nat)
    (hs : Tree.shapes t1 = Tree.shapes t2) :
    ((store_new_file t1 p fp b now).1 = (store_new_file t2 p fp b now).1 ∧
      Tree.shapes (store_new_file t1 p fp b now).2 =
        Tree.shapes (store_new_file t2 p fp b now).2) ∧
    ((update_existing_file t1 p fp b now).1 =
        (update_existing_file t2 p fp b now).1 ∧
      Tree.shapes (update_existing_file t1 p fp b now).2 =
        Tree.shapes (update_existing_file t2 p fp b now).2) ∧
    ((remove_existing_file t1 p b now).1 =
        (remove_existing_file t2 p b now).1 ∧
      Tree.shapes (remove_existing_file t1 p b now).2 =
        Tree.shapes (remove_existing_file t2 p b now).2) ∧
    ((verify t1 p fp).1 = (verify t2 p fp).1 ∧
      Tree.shapes (verify t1 p fp).2 = Tree.shapes (verify t2 p fp).2) ∧
    list_fingerprint_assertions t1 = list_fingerprint_assertions t2 := by
  have hget := Tree.get_shape_congr t1 t2 hs
  have hck := Tree.contains_key_shape_congr t1 t2 hs
  refine ⟨?_, ?_, ?_, ?_, list_fingerprint_assertions_shape_congr t1 t2 hs⟩
  · cases hpk : path_as_key p with
    | none => simp [store_new_file, hpk, hs]
    | some k =>
        cases hg1 : Tree.get t1 k with
        | none =>
            cases hg2 : Tree.get t2 k with
            | none =>
                simp only [store_new_file, hpk, hg1, hg2, true_and]
                exact Tree.shapes_insertRec_congr t1 t2 hs k _ _ rfl
            | some r2 =>
                have hc := hget k
                rw [hg1, hg2] at hc
                simp at hc
        | some r1 =>
            cases hg2 : Tree.get t2 k with
            | none =>
                have hc := hget k
                rw [hg1, hg2] at hc
                simp at hc
            | some r2 =>
                have hr : r1.shape = r2.shape := by
                  have hc := hget k
                  rw [hg1, hg2] at hc
                  simpa using hc
                cases r1 with
                | Assert ts1 fp1 =>
                    cases r2 with
                    | Assert ts2 fp2 =>
                        have hfp : fp1 = fp2 := by
                          simpa [FingerprintRecord.shape] using hr
                        subst hfp
                        by_cases hb : b = true <;>
                          by_cases hfe : fp1 = fp <;>
                          simp [store_new_file, hpk, hg1, hg2,
                            FingerprintRecord.fingerprint, hb, hfe, hs]
                    | Retract ts2 => simp [FingerprintRecord.shape] at hr
                | Retract ts1 =>
                    cases r2 with
                    | Assert ts2 fp2 => simp [FingerprintRecord.shape] at hr
                    | Retract ts2 =>
                        simp only [store_new_file, hpk, hg1, hg2,
                          FingerprintRecord.fingerprint, true_and]
                        exact Tree.shapes_insertRec_congr t1 t2 hs k _ _ rfl
  · cases hpk : path_as_key p with
    | none => simp [update_existing_file, hpk, hs]
    | some k =>
        by_cases hcb : (Tree.contains_key t2 k || b) = true
        · simp only [update_existing_file, hpk, hck k, hcb, if_pos, true_and]
          exact Tree.shapes_insertRec_congr t1 t2 hs k _ _ rfl
        · simp [update_existing_file, hpk, hck k, hcb, hs]
  · cases hpk : path_as_key p with
    | none => simp [remove_existing_file, hpk, hs]
    | some k =>
        by_cases hcb : (Tree.contains_key t2 k || b) = true
        · simp only [remove_existing_file, hpk, hck k, hcb, if_pos, true_and]
          exact Tree.shapes_insertRec_congr t1 t2 hs k _ _ rfl
        · simp [remove_existing_file, hpk, hck k, hcb, hs]
  · cases hpk : path_as_key p with
    | none => simp [verify, hpk, hs]
    | some k =>
        cases hg1 : Tree.get t1 k with
        | none =>
            cases hg2 : Tree.get t2 k with
            | none => simp [verify, hpk, hg1, hg2, hs]
            | some r2 =>
                have hc := hget k
                rw [hg1, hg2] at hc
                simp at hc
        | some r1 =>
            cases hg2 : Tree.get t2 k with
            | none =>
                have hc := hget k
                rw [hg1, hg2] at hc
                simp at hc
            | some r2 =>
                have hr : r1.shape = r2.shape := by
                  have hc := hget k
                  rw [hg1, hg2] at hc
                  simpa using hc
                cases r1 with
                | Assert ts1 fp1 =>
                    cases r2 with
                    | Assert ts2 fp2 =>
                        have hfp : fp1 = fp2 := by
                          simpa [FingerprintRecord.shape] using hr
                        subst hfp
                        by_cases hfe : fp1 = fp <;>
                          simp [verify, hpk, hg1, hg2,
                            FingerprintRecord.fingerprint, hfe, hs]
                    | Retract ts2 => simp [FingerprintRecord.shape] at hr
                | Retract ts1 =>
                    cases r2 with
                    | Assert ts2 fp2 => simp [FingerprintRecord.shape] at hr
                    | Retract ts2 =>
                        simp [verify, hpk, hg1, hg2,
                          FingerprintRecord.fingerprint, hs]

/-- C10 witness: two stores tracking "a" with the same fingerprint at
different timestamps produce the same verify report. -/
theorem report_timestamp_independence_witness :
    (verify [("a", FingerprintRecord.Assert 0 fpA)] (OsPath.utf8 "a") fpB).1 =
      (verify [("a", FingerprintRecord.Assert 99 fpA)]
        (OsPath.utf8 "a") fpB).1 :=
  (report_timestamp_independence [("a", FingerprintRecord.Assert 0 fpA)]
    [("a", FingerprintRecord.Assert 99 fpA)] (OsPath.utf8 "a") fpB true 5
    rfl).2.2.2.1.1

end Fimbl
